import Mathlib

/-!
Shallow embedding of the EPUB-to-PDF converter core
(src/converter.py and src/app.py) and proofs about its
resource index, image transcoder, markup resolver, conversion
pipeline and job queue worker.

Progress fractions are embedded as rationals; external
collaborators (Pillow decoding and JPEG encoding, weasyprint
rendering, the epub reader) appear as explicit inputs recording
their outcome, as the spec treats them as boundary interfaces.
-/

/-! ### Path and string helpers
Embeddings of the library functions the converter calls:
os.path.basename, os.path.dirname, os.path.join, os.path.normpath
(posix variants), str.lstrip with the character set "./",
urllib.parse.unquote (on ASCII percent escapes), and the pathlib
suffix/stem of the final path component. -/

/-- os.path.basename: the part of the path after the last slash. -/
def basename (s : String) : String :=
  ⟨(s.data.reverse.takeWhile (fun c => c != '/')).reverse⟩

/-- os.path.dirname: everything before the last slash, with trailing
slashes stripped unless the head is all slashes. -/
def dirname (s : String) : String :=
  let head := (s.data.reverse.dropWhile (fun c => c != '/')).reverse
  if head ≠ [] ∧ head.any (fun c => c != '/') then
    ⟨(head.reverse.dropWhile (fun c => c == '/')).reverse⟩
  else ⟨head⟩

/-- os.path.join on two components (posix). -/
def joinPath (a b : String) : String :=
  if b.data.head? = some '/' then b
  else if a = "" ∨ a.data.getLast? = some '/' then a ++ b
  else a ++ "/" ++ b

/-- str.lstrip with the set of characters "./": drops every leading
dot or slash (so "../x" becomes "x"). -/
def lstripDotSlash (s : String) : String :=
  ⟨s.data.dropWhile (fun c => c == '.' || c == '/')⟩

/-- Value of a hex digit, if the character is one. -/
def hexVal (c : Char) : Option Nat :=
  if '0' ≤ c ∧ c ≤ '9' then some (c.toNat - '0'.toNat)
  else if 'a' ≤ c ∧ c ≤ 'f' then some (c.toNat - 'a'.toNat + 10)
  else if 'A' ≤ c ∧ c ≤ 'F' then some (c.toNat - 'A'.toNat + 10)
  else none

/-- urllib.parse.unquote on the character list: each valid percent
escape becomes the character it encodes, invalid escapes stay as
written (modelled for ASCII escape values, the only ones the
development evaluates). -/
def unquoteChars : List Char → List Char
  | '%' :: c1 :: c2 :: rest =>
    match hexVal c1, hexVal c2 with
    | some h1, some h2 => Char.ofNat (16 * h1 + h2) :: unquoteChars rest
    | _, _ => '%' :: unquoteChars (c1 :: c2 :: rest)
  | c :: rest => c :: unquoteChars rest
  | [] => []

/-- urllib.parse.unquote. -/
def unquote (s : String) : String := ⟨unquoteChars s.data⟩

/-- str.split on the slash character. -/
def splitSlash : List Char → List (List Char)
  | [] => [[]]
  | c :: rest =>
    let r := splitSlash rest
    if c = '/' then [] :: r
    else (c :: r.headD []) :: r.tail

/-- One step of the component scan of posixpath.normpath. -/
def normStep (initSlashes : Nat) (acc : List (List Char)) (comp : List Char) :
    List (List Char) :=
  if comp = [] ∨ comp = ['.'] then acc
  else if comp ≠ ['.', '.'] ∨ (initSlashes = 0 ∧ acc = []) ∨
      acc.getLast? = some ['.', '.'] then acc ++ [comp]
  else if acc ≠ [] then acc.dropLast
  else acc

/-- os.path.normpath (posix): collapse empty and dot components and
resolve double dots, keeping the initial slashes. -/
def normpath (s : String) : String :=
  if s = "" then "." else
  let cs := s.data
  let initSlashes : Nat :=
    if cs.take 2 = ['/', '/'] ∧ cs.take 3 ≠ ['/', '/', '/'] then 2
    else if cs.head? = some '/' then 1 else 0
  let newComps := (splitSlash cs).foldl (normStep initSlashes) []
  let path := List.replicate initSlashes '/' ++ List.intercalate ['/'] newComps
  if path = [] then "." else ⟨path⟩

/-- Index of the last occurrence of a character. -/
def lastIndexOf (c : Char) : List Char → Option Nat
  | [] => none
  | x :: xs =>
    match lastIndexOf c xs with
    | some i => some (i + 1)
    | none => if x = c then some 0 else none

/-- pathlib suffix of the final component, lowercased: from the last
dot on, provided the dot is neither the first nor the last character
of the name (Path(name).suffix.lower() in the source). -/
def extSuffix (s : String) : String :=
  let name := (basename s).data
  match lastIndexOf '.' name with
  | some i =>
    if 0 < i ∧ i + 1 < name.length then ⟨(name.drop i).map Char.toLower⟩ else ""
  | none => ""

/-- pathlib stem of the final component: the name without its suffix
(Path(path).stem in the source). -/
def pathStem (s : String) : String :=
  let name := (basename s).data
  match lastIndexOf '.' name with
  | some i => if 0 < i ∧ i + 1 < name.length then ⟨name.take i⟩ else ⟨name⟩
  | none => ⟨name⟩

/-! ### Base64 and data URIs (base64.b64encode in the source) -/

/-- The base64 alphabet. -/
def b64Alphabet : List Char :=
  "ABCDEFGHIJKLMNOPQRSTUVWXYZabcdefghijklmnopqrstuvwxyz0123456789+/".data

/-- Character for a 6-bit group. -/
def b64Char (n : Nat) : Char := b64Alphabet.getD n 'A'

/-- base64.b64encode over a byte list. -/
def b64Encode : List Nat → List Char
  | [] => []
  | [a] => [b64Char (a / 4), b64Char (a % 4 * 16), '=', '=']
  | [a, b] => [b64Char (a / 4), b64Char (a % 4 * 16 + b / 16), b64Char (b % 16 * 4), '=']
  | a :: b :: c :: rest =>
    b64Char (a / 4) :: b64Char (a % 4 * 16 + b / 16) ::
      b64Char (b % 16 * 4 + c / 64) :: b64Char (c % 64) :: b64Encode rest

/-- The data URI built in _extract_images. -/
def dataUri (mime : String) (data : List Nat) : String :=
  "data:" ++ mime ++ ";base64," ++ ⟨b64Encode data⟩

/-- The extension-to-MIME table of _extract_images. -/
def mimeTypes : List (String × String) :=
  [(".jpg", "image/jpeg"), (".jpeg", "image/jpeg"), (".png", "image/png"),
   (".gif", "image/gif"), (".svg", "image/svg+xml"), (".webp", "image/webp")]

/-- MIME type for an extension, image/png when unrecognized. -/
def mimeFor (ext : String) : String :=
  (List.lookup ext mimeTypes).getD "image/png"

/-! ### Image transcoder (the optimization block of _extract_images) -/

/-- The Pillow image modes the optimization block distinguishes. -/
inductive ImgMode where
  | RGB : ImgMode
  | RGBA : ImgMode
  | P : ImgMode
  | other : ImgMode
deriving DecidableEq

/-- Width, height and mode of a decoded Pillow image. -/
structure PILImage where
  width : Nat
  height : Nat
  mode : ImgMode
deriving DecidableEq

/-- The resize step: when the width exceeds 1200, the new size is
(1200, int(height * (1200 / width))), which over the rationals is the
floor embedded here as natural division. -/
def resizeIfLarge (img : PILImage) : PILImage :=
  if 1200 < img.width then
    { img with width := 1200, height := img.height * 1200 / img.width }
  else img

/-- The alpha flattening step: RGBA and palette images are pasted onto
an opaque white RGB background of the same size. -/
def flattenAlpha (img : PILImage) : PILImage :=
  match img.mode with
  | ImgMode.RGBA => { img with mode := ImgMode.RGB }
  | ImgMode.P => { img with mode := ImgMode.RGB }
  | _ => img

/-- Extensions the optimization block applies to. -/
def rasterExts : List String := [".jpg", ".jpeg", ".png", ".webp"]

/-- The whole optimization attempt: for a rasterizable extension whose
bytes decode (and re-encode) without an exception, the image that gets
saved as JPEG at quality 85; otherwise none, and the original bytes are
used. The decoded argument stands for the outcome of Image.open on the
resource bytes, an external collaborator. -/
def transcodeImage (ext : String) (decoded : Option PILImage) : Option PILImage :=
  if ext ∈ rasterExts then decoded.map (fun img => flattenAlpha (resizeIfLarge img))
  else none

/-! ### Resource index (_extract_images) -/

/-- One image item of the book, as the pipeline sees it: its name and
raw bytes from the container, together with the outcome of the external
Pillow collaborator on those bytes (the decoded image when the whole
optimization attempt succeeds, and the bytes its JPEG encoder emits for
the optimized image). -/
structure ResItem where
  name : String
  data : List Nat
  decoded : Option PILImage
  jpegBytes : List Nat
deriving DecidableEq

/-- The data URI stored for one item: the JPEG re-encoding when the
optimization attempt succeeds, the original bytes with the
extension-derived MIME type otherwise. -/
def itemUri (it : ResItem) : String :=
  let ext := extSuffix it.name
  match transcodeImage ext it.decoded with
  | some _ => dataUri "image/jpeg" it.jpegBytes
  | none => dataUri (mimeFor ext) it.data

/-- The four key forms one item is registered under, in the order the
source inserts them: raw name, basename, percent-decoded name,
percent-decoded basename. -/
def itemKeys (it : ResItem) : List String :=
  [it.name, basename it.name, unquote it.name, unquote (basename it.name)]

/-- Insert one value under a list of keys, later inserts overwriting. -/
def insertKeys (m : String → Option String) (keys : List String) (v : String) :
    String → Option String :=
  keys.foldl (fun m k => fun x => if x = k then some v else m x) m

/-- Processing a list of items into an images mapping, starting from a
given mapping (the dict built up by the loop of _extract_images). -/
def extractFold (m : String → Option String) (items : List ResItem) :
    String → Option String :=
  items.foldl (fun m it => insertKeys m (itemKeys it) (itemUri it)) m

/-- _extract_images: the images dict of the book. -/
def extractImages (items : List ResItem) : String → Option String :=
  extractFold (fun _ => none) items

/-! ### Markup model and resolver (_process_html_content) -/

mutual
/-- A lenient parse tree of chapter markup: text and elements with an
attribute list. -/
inductive Html where
  | text : String → Html
  | elem : String → List (String × String) → HtmlList → Html
/-- The children of an element, or the top level nodes of a document. -/
inductive HtmlList where
  | nil : HtmlList
  | cons : Html → HtmlList → HtmlList
end

/-- Attribute lookup (tag.get in BeautifulSoup). -/
def getAttr (attrs : List (String × String)) (k : String) : Option String :=
  List.lookup k attrs

/-- Attribute assignment: replace the first binding or append one. -/
def setAttr : List (String × String) → String → String → List (String × String)
  | [], k, v => [(k, v)]
  | kv :: rest, k, v =>
    if kv.1 = k then (k, v) :: rest else kv :: setAttr rest k v

/-- The candidate list the source builds for one img src: the four bare
forms, then, when a chapter base path is known, the forms resolved
relative to the directory of that path (raw and percent-decoded). -/
def srcVariants (src basePath : String) : List String :=
  [src, unquote src, basename src, basename (unquote src)] ++
    (if basePath ≠ "" then
      [normpath (joinPath (dirname basePath) src),
       normpath (joinPath (dirname basePath) (unquote src))]
     else [])

/-- The four bare candidate forms: literal, percent-decoded, and the
basename of each. -/
def bareVariants (src : String) : List String :=
  [src, unquote src, basename src, basename (unquote src)]

/-- The chapter-relative candidate forms, present only when a chapter
base path is known. -/
def relVariants (src basePath : String) : List String :=
  if basePath ≠ "" then
    [normpath (joinPath (dirname basePath) src),
     normpath (joinPath (dirname basePath) (unquote src))]
  else []

/-- The candidate loop body of _process_html_content: each variant is
cleaned with lstrip of dots and slashes, and the first one present in
the images mapping gives the rewritten reference. -/
def firstHit (images : String → Option String) (variants : List String) :
    Option String :=
  match variants.find? (fun v => (images (lstripDotSlash v)).isSome) with
  | some v => images (lstripDotSlash v)
  | none => none

/-- The candidate loop of _process_html_content over the list the
source builds. -/
def resolveSrc (images : String → Option String) (src basePath : String) :
    Option String :=
  firstHit images (srcVariants src basePath)

/-- Modelled from the spec sentence on ResourceEntry lookups, which
says the resolver tries a path resolved relative to the referencing
chapter before falling back to the bare forms; kept only to compare
that order against the order the source implements. -/
def resolveSrcSpecOrder (images : String → Option String) (src basePath : String) :
    Option String :=
  firstHit images (relVariants src basePath ++ bareVariants src)

/-- New attributes of one element: an img with a non-empty src whose
reference resolves gets its src rewritten; everything else is kept. -/
def rewriteAttrs (images : String → Option String) (basePath : String)
    (tag : String) (attrs : List (String × String)) : List (String × String) :=
  if tag = "img" then
    let src := (getAttr attrs "src").getD ""
    if src = "" then attrs
    else
      match resolveSrc images src basePath with
      | some uri => setAttr attrs "src" uri
      | none => attrs
  else attrs

mutual
/-- The img pass of _process_html_content over one node. -/
def rewriteImgs (images : String → Option String) (basePath : String) :
    Html → Html
  | Html.text s => Html.text s
  | Html.elem t a cs =>
    Html.elem t (rewriteAttrs images basePath t a) (rewriteImgsList images basePath cs)
/-- The img pass over a node list. -/
def rewriteImgsList (images : String → Option String) (basePath : String) :
    HtmlList → HtmlList
  | HtmlList.nil => HtmlList.nil
  | HtmlList.cons c cs =>
    HtmlList.cons (rewriteImgs images basePath c) (rewriteImgsList images basePath cs)
end

/-- Whether a node is a script element. -/
def isScriptTag : Html → Bool
  | Html.elem t _ _ => t == "script"
  | _ => false

mutual
/-- The script pass of _process_html_content inside one kept node:
every script child is decomposed (dropped with its subtree). -/
def stripScripts : Html → Html
  | Html.text s => Html.text s
  | Html.elem t a cs => Html.elem t a (stripScriptsList cs)
/-- The script pass over a node list. -/
def stripScriptsList : HtmlList → HtmlList
  | HtmlList.nil => HtmlList.nil
  | HtmlList.cons c cs =>
    if isScriptTag c then stripScriptsList cs
    else HtmlList.cons (stripScripts c) (stripScriptsList cs)
end

mutual
/-- Whether a script element occurs anywhere in a node. -/
def hasScript : Html → Bool
  | Html.text _ => false
  | Html.elem t _ cs => t == "script" || hasScriptList cs
/-- Whether a script element occurs anywhere in a node list. -/
def hasScriptList : HtmlList → Bool
  | HtmlList.nil => false
  | HtmlList.cons c cs => hasScript c || hasScriptList cs
end

/-- _process_html_content on a parsed document: rewrite img references,
then remove every script element. -/
def processHtmlContent (images : String → Option String) (basePath : String)
    (doc : HtmlList) : HtmlList :=
  stripScriptsList (rewriteImgsList images basePath doc)

/-! ### Conversion pipeline (EPUBConverter.convert) -/

/-- One spine item the convert loop sees: whether get_type() is
ITEM_DOCUMENT, its name (the chapter base path), and its parsed
content. -/
structure SpineItem where
  isDocument : Bool
  name : String
  content : HtmlList

/-- The book model returned by the external epub reader: optional
title and creator metadata (the first DC entry when the metadata list
is non-empty), the spine with each id resolved through
get_item_with_id (none when the lookup finds nothing), and the image
items. -/
structure Book where
  titleMeta : Option String
  creatorMeta : Option String
  spine : List (Option SpineItem)
  imageItems : List ResItem

/-- The spine items that resolve, in reading order. -/
def spineItems (book : Book) : List SpineItem :=
  book.spine.filterMap id

/-- The document title: the first DC title entry, or the stem of the
source path when the metadata is absent. -/
def docTitle (book : Book) (epubPath : String) : String :=
  match book.titleMeta with
  | some t => t
  | none => pathStem epubPath

/-- The author: the first DC creator entry, or the empty string. -/
def docAuthor (book : Book) : String :=
  match book.creatorMeta with
  | some a => a
  | none => ""

/-- The author paragraph of the title page, empty for an empty
author (the f-string conditional of the source). -/
def authorFragment (author : String) : String :=
  if author = "" then "" else "<p class=\"author\">" ++ author ++ "</p>"

/-- The title page block of the combined document (the surrounding
indentation whitespace of the f-string is elided). -/
def titlePagePart (title author : String) : String :=
  "<div class=\"title-page\"><h1>" ++ title ++ "</h1>" ++
    authorFragment author ++ "</div>"

/-- Rendering of one attribute list. -/
def renderAttrs : List (String × String) → String
  | [] => ""
  | kv :: rest => " " ++ kv.1 ++ "=\"" ++ kv.2 ++ "\"" ++ renderAttrs rest

mutual
/-- str(soup) on one node. -/
def renderHtml : Html → String
  | Html.text s => s
  | Html.elem t a cs =>
    "<" ++ t ++ renderAttrs a ++ ">" ++ renderHtmlList cs ++ "</" ++ t ++ ">"
/-- str(soup) on a node list. -/
def renderHtmlList : HtmlList → String
  | HtmlList.nil => ""
  | HtmlList.cons c cs => renderHtml c ++ renderHtmlList cs
end

mutual
/-- soup.find of the first body element, depth first: its children. -/
def findBody : Html → Option HtmlList
  | Html.text _ => none
  | Html.elem t _ cs => if t = "body" then some cs else findBodyList cs
/-- soup.find of the first body element in a node list. -/
def findBodyList : HtmlList → Option HtmlList
  | HtmlList.nil => none
  | HtmlList.cons c cs =>
    match findBody c with
    | some r => some r
    | none => findBodyList cs
end

/-- One chapter block: the processed content of the chapter, reduced
to the body children when a body element exists, wrapped in a chapter
div (the re-parse of the processed string is modelled as reading the
processed tree directly). -/
def chapterPart (images : String → Option String) (it : SpineItem) : String :=
  let processed := processHtmlContent images it.name it.content
  match findBodyList processed with
  | some body => "<div class=\"chapter\">" ++ renderHtmlList body ++ "</div>"
  | none => "<div class=\"chapter\">" ++ renderHtmlList processed ++ "</div>"

/-- html_parts: the title page followed by one block per document
spine item. -/
def htmlParts (book : Book) (epubPath : String) : List String :=
  let images := extractImages book.imageItems
  titlePagePart (docTitle book epubPath) (docAuthor book) ::
    ((spineItems book).filter (fun it => it.isDocument)).map (chapterPart images)

/-- The combined document handed to the renderer (indentation
whitespace of the f-string elided). -/
def fullHtml (book : Book) (epubPath : String) : String :=
  "<!DOCTYPE html><html><head><meta charset=\"utf-8\"><title>" ++
    docTitle book epubPath ++ "</title></head><body>" ++
    String.join (htmlParts book epubPath) ++ "</body></html>"

/-- The chapter progress fraction: 0.2 + 0.5 * (idx / max(total, 1)).
The constants are written with mkRat, which equals the corresponding
division, so that the kernel can evaluate concrete runs. -/
def chapFrac (total idx : Nat) : ℚ :=
  mkRat 1 5 + mkRat 1 2 * ((idx : ℚ) / ((max total 1 : Nat) : ℚ))

/-- The chapter loop reports: one per document item, carrying the
enumeration index over all spine items. -/
def chapterReports (total : Nat) : Nat → List SpineItem → List (ℚ × String)
  | _, [] => []
  | idx, it :: rest =>
    (if it.isDocument then
      [(chapFrac total idx,
        "Processing chapter " ++ toString (idx + 1) ++ " of " ++ toString total ++ "...")]
     else []) ++ chapterReports total (idx + 1) rest

/-- The progress reports of a conversion whose source reads
successfully, up to and including the write checkpoint. -/
def preReports (book : Book) : List (ℚ × String) :=
  [((0 : ℚ), "Opening EPUB file..."), (mkRat 1 10, "Extracting images..."),
   (mkRat 1 5, "Processing chapters...")] ++
    chapterReports (spineItems book).length 0 (spineItems book) ++
    [(mkRat 7 10, "Generating PDF..."), (mkRat 17 20, "Writing PDF file...")]

/-- The outcomes of the two fallible external collaborators the
convert method calls: epub.read_epub on the source path and
write_pdf on the destination; an error value carries the message of
the exception the collaborator raises. -/
structure ConvInput where
  readResult : Except String Book
  renderResult : Except String Unit

/-- What one call of convert does: the progress reports delivered to
the callback in order, the returned value or the re-raised exception,
and the combined document when assembly was reached. -/
structure ConvOutput where
  reports : List (ℚ × String)
  result : Except String Bool
  html : Option String

/-- EPUBConverter.convert: reports the fixed checkpoints and the
chapter fractions, returns True on success; any exception is reported
once at fraction 0.0 with an error message and re-raised. -/
def convert (epubPath : String) (inp : ConvInput) : ConvOutput :=
  match inp.readResult with
  | Except.error e =>
    ⟨[((0 : ℚ), "Opening EPUB file..."), ((0 : ℚ), "Error: " ++ e)],
      Except.error e, none⟩
  | Except.ok book =>
    match inp.renderResult with
    | Except.error e =>
      ⟨preReports book ++ [((0 : ℚ), "Error: " ++ e)], Except.error e,
        some (fullHtml book epubPath)⟩
    | Except.ok _ =>
      ⟨preReports book ++ [((1 : ℚ), "Complete!")], Except.ok true,
        some (fullHtml book epubPath)⟩

/-- convert_epub_to_pdf: builds a converter and returns what its
convert returns. -/
def convert_epub_to_pdf (epubPath : String) (inp : ConvInput) : ConvOutput :=
  convert epubPath inp

/-! ### Job queue and worker (src/app.py) -/

/-- ConversionStatus. -/
inductive ConversionStatus where
  | pending : ConversionStatus
  | converting : ConversionStatus
  | completed : ConversionStatus
  | failed : ConversionStatus
deriving DecidableEq

/-- One observer notification: result_callback(status, progress,
message) for a fixed item. -/
structure WEvent where
  status : ConversionStatus
  progress : ℚ
  message : String
deriving DecidableEq

/-- The notifications ConversionWorker.run delivers for one dequeued
item, given what the pipeline did: Converting at 0.0 first, every
pipeline report as Converting, then Completed forced to 1.0 when the
pipeline returned, or Failed forced to 0.0 when it raised. -/
def workerEvents (out : ConvOutput) : List WEvent :=
  ⟨ConversionStatus.converting, 0, "Starting conversion..."⟩ ::
    (out.reports.map (fun r => ⟨ConversionStatus.converting, r.1, r.2⟩) ++
      (match out.result with
       | Except.ok _ => [⟨ConversionStatus.completed, 1, "Complete!"⟩]
       | Except.error e => [⟨ConversionStatus.failed, 0, "Error: " ++ e⟩]))

/-- The app state the queue operations touch: the ids in the
queue_items dict (the observed set), the ids in task_queue in FIFO
order, and the notifications delivered so far, tagged with their item
id. -/
structure AppState where
  queueItems : List String
  taskQueue : List String
  events : List (String × WEvent)
deriving DecidableEq

/-- _add_files_to_queue for one existing file: record the item and put
it on the task queue. -/
def addFile (s : AppState) (id : String) : AppState :=
  { s with queueItems := s.queueItems ++ [id], taskQueue := s.taskQueue ++ [id] }

/-- _remove_item: deletes the widget and the queue_items entry; the
task_queue entry is left in place, exactly as in the source. -/
def removeItem (s : AppState) (id : String) : AppState :=
  { s with queueItems := s.queueItems.filter (fun x => x ≠ id) }

/-- One pass of the worker loop body: dequeue the next item id, run
the pipeline for it and deliver every notification, whether or not the
item is still in the observed set. -/
def workerStep (s : AppState) (out : ConvOutput) : AppState :=
  match s.taskQueue with
  | [] => s
  | id :: rest =>
    { s with taskQueue := rest,
             events := s.events ++ (workerEvents out).map (fun ev => (id, ev)) }

/-! ### Concrete inputs for witnesses and counterexamples -/

/-- An image item under a directory, with bytes that fail to decode. -/
def exImgA : ResItem := ⟨"a/img.png", [0], none, []⟩

/-- A second item with the same basename under another directory. -/
def exImgB : ResItem := ⟨"b/img.png", [1], none, []⟩

/-- A resource index holding a bare key and a chapter-relative key
with different values. -/
def cexImages : String → Option String := fun k =>
  if k = "img.png" then some "data:A"
  else if k = "ch/img.png" then some "data:B"
  else none

/-- A book with no metadata, no spine and no images. -/
def emptyBook : Book := ⟨none, none, [], []⟩

/-- A run where both external collaborators succeed. -/
def okInp : ConvInput := ⟨Except.ok emptyBook, Except.ok ()⟩

/-- A run where the source reads but the renderer raises. -/
def cexInp : ConvInput := ⟨Except.ok emptyBook, Except.error "disk full"⟩

/-- The empty app state. -/
def s0 : AppState := ⟨[], [], []⟩

/-- The pipeline outcome of a successful conversion run. -/
def out0 : ConvOutput := convert "j.epub" okInp

/-! ### Script removal -/

mutual
theorem stripScripts_no_script : (h : Html) → isScriptTag h = false →
    hasScript (stripScripts h) = false
  | Html.text _, _ => rfl
  | Html.elem t a cs, hne => by
    have hl := stripScriptsList_no_script cs
    simp only [stripScripts, hasScript, Bool.or_eq_false_iff]
    exact ⟨by simpa [isScriptTag] using hne, hl⟩
theorem stripScriptsList_no_script : (l : HtmlList) →
    hasScriptList (stripScriptsList l) = false
  | HtmlList.nil => rfl
  | HtmlList.cons c cs => by
    by_cases hc : isScriptTag c = true
    · simpa [stripScriptsList, hc] using stripScriptsList_no_script cs
    · have h1 := stripScripts_no_script c (by simpa using hc)
      have h2 := stripScriptsList_no_script cs
      simp [stripScriptsList, hc, hasScriptList, h1, h2]
end

/-- C6: for every input chapter markup, the output of the markup
resolver contains no script element: all script-bearing elements are
removed unconditionally. -/
theorem processHtmlContent_no_scripts (images : String → Option String)
    (basePath : String) (doc : HtmlList) :
    hasScriptList (processHtmlContent images basePath doc) = false :=
  stripScriptsList_no_script (rewriteImgsList images basePath doc)

/-! ### Resolver candidate order -/

/-- Taking the first candidate whose lookup succeeds and then looking
it up is the first successful lookup. -/
theorem firstHit_eq_findSome? (images : String → Option String) :
    ∀ l : List String,
      firstHit images l = l.findSome? (fun v => images (lstripDotSlash v))
  | [] => rfl
  | a :: l => by
    cases h : images (lstripDotSlash a) with
    | some b => simp [firstHit, List.find?_cons, List.findSome?_cons, h]
    | none =>
      simpa [firstHit, List.find?_cons, List.findSome?_cons, h] using
        firstHit_eq_findSome? images l

/-- C3 (amended): the resolver tries the bare candidate forms first, in
the order literal, percent-decoded, basename of each, and only then the
chapter-relative resolved forms (raw, then decoded); the first candidate
present in the resource index determines the rewritten reference. -/
theorem resolveSrc_priority (images : String → Option String) (src basePath : String) :
    resolveSrc images src basePath =
      (bareVariants src ++ relVariants src basePath).findSome?
        (fun v => images (lstripDotSlash v)) :=
  firstHit_eq_findSome? images (bareVariants src ++ relVariants src basePath)

/-- C3 counterexample: with a chapter base path of "ch/doc.html" and a
reference "img.png", the code resolves to the bare key even though the
chapter-relative key is present, while the order the claim states would
resolve to the chapter-relative key. -/
theorem resolveSrc_spec_order_cex :
    resolveSrc cexImages "img.png" "ch/doc.html" = some "data:A" ∧
    resolveSrcSpecOrder cexImages "img.png" "ch/doc.html" = some "data:B" ∧
    resolveSrc cexImages "img.png" "ch/doc.html" ≠
      resolveSrcSpecOrder cexImages "img.png" "ch/doc.html" := by decide

/-! ### Image transcoder bounds -/

theorem flattenAlpha_width (img : PILImage) : (flattenAlpha img).width = img.width := by
  cases hm : img.mode <;> simp [flattenAlpha, hm]

theorem flattenAlpha_height (img : PILImage) : (flattenAlpha img).height = img.height := by
  cases hm : img.mode <;> simp [flattenAlpha, hm]

/-- C7: a rasterizable image successfully processed by the transcoder
comes out at most 1200 units wide; an input of width at most 1200 keeps
its dimensions, and a wider input is scaled to width 1200 with the
height that preserves the aspect ratio up to the integer floor. -/
theorem transcodeImage_width (ext : String) (img out : PILImage)
    (h : transcodeImage ext (some img) = some out) :
    out.width ≤ 1200 ∧
    (img.width ≤ 1200 → out.width = img.width ∧ out.height = img.height) ∧
    (1200 < img.width →
      out.width = 1200 ∧ out.height = img.height * 1200 / img.width ∧
      out.height * img.width ≤ img.height * 1200 ∧
      img.height * 1200 < (out.height + 1) * img.width) := by
  by_cases hr : ext ∈ rasterExts
  · simp only [transcodeImage, if_pos hr, Option.map_some'] at h
    have hout : out = flattenAlpha (resizeIfLarge img) := (Option.some.inj h).symm
    by_cases hw : 1200 < img.width
    · have hres : resizeIfLarge img =
          { img with width := 1200, height := img.height * 1200 / img.width } := by
        simp [resizeIfLarge, hw]
      have hW : out.width = 1200 := by
        rw [hout, flattenAlpha_width, hres]
      have hH : out.height = img.height * 1200 / img.width := by
        rw [hout, flattenAlpha_height, hres]
      have hpos : 0 < img.width := by omega
      have hdm := Nat.div_add_mod (img.height * 1200) img.width
      have hmod := Nat.mod_lt (img.height * 1200) hpos
      have hle : img.height * 1200 / img.width * img.width ≤ img.height * 1200 :=
        Nat.div_mul_le_self _ _
      refine ⟨by omega, fun hcontra => absurd hcontra (by omega), fun _ => ⟨hW, hH, ?_, ?_⟩⟩
      · rw [hH]; exact hle
      · rw [hH]
        calc img.height * 1200
            = img.width * (img.height * 1200 / img.width) +
                img.height * 1200 % img.width := (Nat.div_add_mod _ _).symm
          _ < img.width * (img.height * 1200 / img.width) + img.width :=
              Nat.add_lt_add_left hmod _
          _ = (img.height * 1200 / img.width + 1) * img.width := by ring
    · have hres : resizeIfLarge img = img := by simp [resizeIfLarge, hw]
      have hW : out.width = img.width := by rw [hout, flattenAlpha_width, hres]
      have hH : out.height = img.height := by rw [hout, flattenAlpha_height, hres]
      exact ⟨by omega, fun _ => ⟨hW, hH⟩, fun hcontra => absurd hcontra (by omega)⟩
  · simp [transcodeImage, hr] at h

/-- C7 witness: a 2400 by 1000 PNG is scaled to 1200 by 500. -/
theorem transcodeImage_width_witness :
    (⟨1200, 500, ImgMode.RGB⟩ : PILImage).width ≤ 1200 ∧
    ((⟨2400, 1000, ImgMode.RGB⟩ : PILImage).width ≤ 1200 →
      (⟨1200, 500, ImgMode.RGB⟩ : PILImage).width =
        (⟨2400, 1000, ImgMode.RGB⟩ : PILImage).width ∧
      (⟨1200, 500, ImgMode.RGB⟩ : PILImage).height =
        (⟨2400, 1000, ImgMode.RGB⟩ : PILImage).height) ∧
    (1200 < (⟨2400, 1000, ImgMode.RGB⟩ : PILImage).width →
      (⟨1200, 500, ImgMode.RGB⟩ : PILImage).width = 1200 ∧
      (⟨1200, 500, ImgMode.RGB⟩ : PILImage).height =
        (⟨2400, 1000, ImgMode.RGB⟩ : PILImage).height * 1200 /
          (⟨2400, 1000, ImgMode.RGB⟩ : PILImage).width ∧
      (⟨1200, 500, ImgMode.RGB⟩ : PILImage).height *
          (⟨2400, 1000, ImgMode.RGB⟩ : PILImage).width ≤
        (⟨2400, 1000, ImgMode.RGB⟩ : PILImage).height * 1200 ∧
      (⟨2400, 1000, ImgMode.RGB⟩ : PILImage).height * 1200 <
        ((⟨1200, 500, ImgMode.RGB⟩ : PILImage).height + 1) *
          (⟨2400, 1000, ImgMode.RGB⟩ : PILImage).width) :=
  transcodeImage_width ".png" ⟨2400, 1000, ImgMode.RGB⟩ ⟨1200, 500, ImgMode.RGB⟩ (by decide)

/-! ### Resource index key registration -/

theorem insertKeys_not_mem (v : String) :
    ∀ (keys : List String) (m : String → Option String) (k : String),
      k ∉ keys → insertKeys m keys v k = m k
  | [], _, _, _ => rfl
  | k0 :: rest, m, k, h => by
    have h0 : k ≠ k0 := fun e => h (e ▸ List.mem_cons_self k0 rest)
    have h1 : k ∉ rest := fun e => h (List.mem_cons_of_mem _ e)
    show insertKeys (fun x => if x = k0 then some v else m x) rest v k = m k
    rw [insertKeys_not_mem v rest _ k h1]
    simp [h0]

theorem insertKeys_mem (v : String) :
    ∀ (keys : List String) (m : String → Option String) (k : String),
      k ∈ keys → insertKeys m keys v k = some v
  | [], _, _, h => absurd h (List.not_mem_nil _)
  | k0 :: rest, m, k, h => by
    by_cases hk : k ∈ rest
    · exact insertKeys_mem v rest _ k hk
    · have h0 : k = k0 := by
        rcases List.mem_cons.mp h with h | h
        · exact h
        · exact absurd h hk
      show insertKeys (fun x => if x = k0 then some v else m x) rest v k = some v
      rw [insertKeys_not_mem v rest _ k hk]
      simp [h0]

theorem extractFold_preserve :
    ∀ (items : List ResItem) (m : String → Option String) (k : String),
      (∀ it ∈ items, k ∉ itemKeys it) → extractFold m items k = m k
  | [], _, _, _ => rfl
  | it :: rest, m, k, h => by
    have h0 : k ∉ itemKeys it := h it (List.mem_cons_self _ _)
    have h1 : ∀ x ∈ rest, k ∉ itemKeys x := fun x hx => h x (List.mem_cons_of_mem _ hx)
    show extractFold (insertKeys m (itemKeys it) (itemUri it)) rest k = m k
    rw [extractFold_preserve rest _ k h1]
    exact insertKeys_not_mem _ _ _ _ h0

theorem extractFold_isSome :
    ∀ (items : List ResItem) (m : String → Option String) (k : String),
      (m k).isSome = true → (extractFold m items k).isSome = true
  | [], _, _, h => h
  | it :: rest, m, k, h => by
    show (extractFold (insertKeys m (itemKeys it) (itemUri it)) rest k).isSome = true
    apply extractFold_isSome rest _ k
    by_cases hk : k ∈ itemKeys it
    · rw [insertKeys_mem _ _ _ _ hk]; rfl
    · rw [insertKeys_not_mem _ _ _ _ hk]; exact h

/-- C2 (amended): every one of the four key forms of a resource is
present in the images mapping; each maps to that resource's own value
provided no later-processed resource shares the key form, a later
resource overwriting the shared key otherwise. -/
theorem extractImages_all_keys (pre post : List ResItem) (it : ResItem) (k : String)
    (hk : k ∈ itemKeys it) :
    (extractImages (pre ++ it :: post) k).isSome = true ∧
    ((∀ o ∈ post, k ∉ itemKeys o) →
      extractImages (pre ++ it :: post) k = some (itemUri it)) := by
  have hsplit : extractImages (pre ++ it :: post) k =
      extractFold (insertKeys (extractFold (fun _ => none) pre)
        (itemKeys it) (itemUri it)) post k := by
    unfold extractImages extractFold
    rw [List.foldl_append]
    rfl
  constructor
  · rw [hsplit]
    exact extractFold_isSome post _ k (by rw [insertKeys_mem _ _ _ _ hk]; rfl)
  · intro hpost
    rw [hsplit, extractFold_preserve post _ k hpost]
    exact insertKeys_mem _ _ _ _ hk

/-- C2 witness: a lone resource registers its basename key and maps it
to its own value. -/
theorem extractImages_all_keys_witness :
    (extractImages ([] ++ exImgA :: []) "img.png").isSome = true ∧
    ((∀ o ∈ ([] : List ResItem), "img.png" ∉ itemKeys o) →
      extractImages ([] ++ exImgA :: []) "img.png" = some (itemUri exImgA)) :=
  extractImages_all_keys [] [] exImgA "img.png" (by decide)

/-- C2 counterexample: two resources share the basename key form, and
the basename key of the earlier resource maps to the later resource's
value, which differs byte for byte. -/
theorem extractImages_collision_cex :
    exImgA ∈ [exImgA, exImgB] ∧ "img.png" ∈ itemKeys exImgA ∧
    extractImages [exImgA, exImgB] "img.png" ≠ some (itemUri exImgA) := by decide

/-! ### Progress fraction bounds -/

theorem mkRat_fifth_eq : (mkRat 1 5 : ℚ) = 1 / 5 := by
  rw [Rat.mkRat_eq_divInt, Rat.divInt_eq_div]; norm_num

theorem mkRat_half_eq : (mkRat 1 2 : ℚ) = 1 / 2 := by
  rw [Rat.mkRat_eq_divInt, Rat.divInt_eq_div]; norm_num

theorem mkRat_sevenTenths_eq : (mkRat 7 10 : ℚ) = 7 / 10 := by
  rw [Rat.mkRat_eq_divInt, Rat.divInt_eq_div]; norm_num

theorem chapFrac_lb (total idx : Nat) : mkRat 1 5 ≤ chapFrac total idx := by
  unfold chapFrac
  have h : (0 : ℚ) ≤ mkRat 1 2 * ((idx : ℚ) / ((max total 1 : Nat) : ℚ)) := by
    rw [mkRat_half_eq]
    exact mul_nonneg (by norm_num) (div_nonneg (Nat.cast_nonneg _) (Nat.cast_nonneg _))
  linarith

theorem chapFrac_mono (total : Nat) {i j : Nat} (hij : i ≤ j) :
    chapFrac total i ≤ chapFrac total j := by
  unfold chapFrac
  have hm : (0 : ℚ) < ((max total 1 : Nat) : ℚ) := by
    exact_mod_cast Nat.lt_of_lt_of_le Nat.zero_lt_one (le_max_right total 1)
  have hdiv : ((i : ℚ) / ((max total 1 : Nat) : ℚ)) ≤ (j : ℚ) / ((max total 1 : Nat) : ℚ) := by
    apply div_le_div_of_nonneg_right ?_ hm.le
    exact_mod_cast hij
  have h2 : (0 : ℚ) ≤ mkRat 1 2 := by rw [mkRat_half_eq]; norm_num
  have := mul_le_mul_of_nonneg_left hdiv h2
  linarith

theorem chapFrac_ub (total idx : Nat) (h : idx ≤ total) :
    chapFrac total idx ≤ mkRat 7 10 := by
  unfold chapFrac
  rw [mkRat_fifth_eq, mkRat_half_eq, mkRat_sevenTenths_eq]
  have hm : (0 : ℚ) < ((max total 1 : Nat) : ℚ) := by
    exact_mod_cast Nat.lt_of_lt_of_le Nat.zero_lt_one (le_max_right total 1)
  have hdiv : ((idx : ℚ) / ((max total 1 : Nat) : ℚ)) ≤ 1 := by
    rw [div_le_one hm]
    exact_mod_cast le_trans h (le_max_left total 1)
  linarith

theorem chapterReports_mem :
    ∀ (total idx : Nat) (items : List SpineItem) (p : ℚ × String),
      p ∈ chapterReports total idx items →
      ∃ j, idx ≤ j ∧ j < idx + items.length ∧ p.1 = chapFrac total j
  | _, _, [], _, h => absurd h (List.not_mem_nil _)
  | total, idx, it :: rest, p, h => by
    rw [chapterReports] at h
    rcases List.mem_append.mp h with h1 | h2
    · by_cases hd : it.isDocument = true
      · rw [if_pos hd] at h1
        have hp := List.mem_singleton.mp h1
        refine ⟨idx, le_refl _, by simp, ?_⟩
        rw [hp]
      · rw [if_neg hd] at h1
        exact absurd h1 (List.not_mem_nil _)
    · rcases chapterReports_mem total (idx + 1) rest p h2 with ⟨j, hj1, hj2, hj3⟩
      exact ⟨j, by omega, by simp only [List.length_cons]; omega, hj3⟩

theorem chapterReports_pairwise :
    ∀ (total idx : Nat) (items : List SpineItem),
      ((chapterReports total idx items).map Prod.fst).Pairwise (· ≤ ·)
  | _, _, [] => List.Pairwise.nil
  | total, idx, it :: rest => by
    rw [chapterReports]
    by_cases hd : it.isDocument = true
    · rw [if_pos hd, List.singleton_append, List.map_cons, List.pairwise_cons]
      constructor
      · intro b hb
        rcases List.mem_map.mp hb with ⟨p, hp, rfl⟩
        rcases chapterReports_mem total (idx + 1) rest p hp with ⟨j, hj1, _, hj3⟩
        rw [hj3]
        exact chapFrac_mono total (by omega)
      · exact chapterReports_pairwise total (idx + 1) rest
    · rw [if_neg hd, List.nil_append]
      exact chapterReports_pairwise total (idx + 1) rest

/-- The fraction sequence of a successful run is sorted. -/
theorem success_fractions_pairwise (book : Book) :
    ((preReports book ++ [((1 : ℚ), "Complete!")]).map Prod.fst).Pairwise (· ≤ ·) := by
  have hmem : ∀ q ∈ (chapterReports (spineItems book).length 0 (spineItems book)).map Prod.fst,
      mkRat 1 5 ≤ q ∧ q ≤ mkRat 7 10 := by
    intro q hq
    rcases List.mem_map.mp hq with ⟨p, hp, rfl⟩
    rcases chapterReports_mem _ 0 _ p hp with ⟨j, _, hj2, hj3⟩
    rw [hj3]
    exact ⟨chapFrac_lb _ _, chapFrac_ub _ _ (by omega)⟩
  have hM := chapterReports_pairwise (spineItems book).length 0 (spineItems book)
  have htail : ((chapterReports (spineItems book).length 0 (spineItems book)).map Prod.fst ++
      [mkRat 7 10, mkRat 17 20, (1 : ℚ)]).Pairwise (· ≤ ·) := by
    rw [List.pairwise_append]
    refine ⟨hM, by decide, ?_⟩
    intro a ha b hb
    have ha7 : a ≤ mkRat 7 10 := (hmem a ha).2
    have h12 : (mkRat 7 10 : ℚ) ≤ mkRat 17 20 := by decide
    have h21 : (mkRat 17 20 : ℚ) ≤ 1 := by decide
    rcases List.mem_cons.mp hb with rfl | hb
    · exact ha7
    rcases List.mem_cons.mp hb with rfl | hb
    · linarith
    rcases List.mem_singleton.mp hb with rfl
    linarith
  have hAll : ∀ b ∈ (chapterReports (spineItems book).length 0 (spineItems book)).map Prod.fst ++
      [mkRat 7 10, mkRat 17 20, (1 : ℚ)], mkRat 1 5 ≤ b := by
    intro b hb
    rcases List.mem_append.mp hb with hb | hb
    · exact (hmem b hb).1
    · rcases List.mem_cons.mp hb with rfl | hb
      · decide
      rcases List.mem_cons.mp hb with rfl | hb
      · decide
      rcases List.mem_singleton.mp hb with rfl
      decide
  simp only [preReports, List.map_append, List.map_cons, List.map_nil, List.append_assoc,
    List.cons_append, List.nil_append]
  refine List.pairwise_cons.mpr ⟨?_, List.pairwise_cons.mpr ⟨?_,
    List.pairwise_cons.mpr ⟨hAll, htail⟩⟩⟩
  · intro b hb
    rcases List.mem_cons.mp hb with rfl | hb
    · decide
    rcases List.mem_cons.mp hb with rfl | hb
    · decide
    · have := hAll b hb
      have h05 : (0 : ℚ) ≤ mkRat 1 5 := by decide
      linarith
  · intro b hb
    rcases List.mem_cons.mp hb with rfl | hb
    · decide
    · have := hAll b hb
      have h15 : (mkRat 1 10 : ℚ) ≤ mkRat 1 5 := by decide
      linarith

/-! ### Pipeline progress claims -/

/-- C1 (amended): for every run that returns success the reported
fractions are non-decreasing and the last is exactly 1; for every run
that fails the last reported fraction is exactly 0 (the final failure
report may drop below the fractions already reported, so the whole
failing sequence need not be non-decreasing). -/
theorem convert_progress_monotone (epubPath : String) (inp : ConvInput) :
    ((convert epubPath inp).result = Except.ok true →
      (((convert epubPath inp).reports).map Prod.fst).Pairwise (· ≤ ·) ∧
      (((convert epubPath inp).reports).map Prod.fst).getLast? = some 1) ∧
    (∀ e, (convert epubPath inp).result = Except.error e →
      (((convert epubPath inp).reports).map Prod.fst).getLast? = some 0) := by
  cases hr : inp.readResult with
  | error e =>
    simp only [convert, hr]
    exact ⟨fun hok => Except.noConfusion hok, fun e2 he => by simp⟩
  | ok book =>
    cases hw : inp.renderResult with
    | error e =>
      simp only [convert, hr, hw]
      refine ⟨fun hok => Except.noConfusion hok, fun e2 he => ?_⟩
      rw [List.map_append]
      simp [List.getLast?_concat]
    | ok u =>
      simp only [convert, hr, hw]
      refine ⟨fun _ => ⟨success_fractions_pairwise book, ?_⟩,
        fun e2 he => Except.noConfusion he⟩
      rw [List.map_append]
      simp [List.getLast?_concat]

/-- C1 witness: a fully successful run with an empty spine has sorted
fractions ending at 1. -/
theorem convert_progress_monotone_witness :
    (((convert "book.epub" okInp).reports).map Prod.fst).Pairwise (· ≤ ·) ∧
    (((convert "book.epub" okInp).reports).map Prod.fst).getLast? = some 1 :=
  (convert_progress_monotone "book.epub" okInp).1 rfl

/-- C1 counterexample: when the renderer raises, the run has already
reported 0.85, and the final failure report of 0 makes the whole
fraction sequence decrease at its last step. -/
theorem convert_progress_monotone_cex :
    (convert "book.epub" cexInp).result = Except.error "disk full" ∧
    ¬ (((convert "book.epub" cexInp).reports).map Prod.fst).Pairwise (· ≤ ·) :=
  ⟨rfl, by decide⟩

/-- C8: a source with an empty spine converts without any division by
zero (the guard max(total, 1) is positive) and the reported fractions
are exactly the checkpoints, ending at 1. -/
theorem convert_empty_spine (epubPath : String) (inp : ConvInput) (book : Book)
    (h1 : inp.readResult = Except.ok book) (h2 : book.spine = [])
    (h3 : inp.renderResult = Except.ok ()) :
    (convert epubPath inp).result = Except.ok true ∧
    ((convert epubPath inp).reports).map Prod.fst =
      [0, mkRat 1 10, mkRat 1 5, mkRat 7 10, mkRat 17 20, 1] ∧
    0 < max (spineItems book).length 1 := by
  simp only [convert, h1, h3]
  refine ⟨trivial, ?_, by omega⟩
  simp [preReports, spineItems, h2, chapterReports]

/-- C8 witness: the empty book converts with the checkpoint fractions. -/
theorem convert_empty_spine_witness :
    (convert "book.epub" okInp).result = Except.ok true ∧
    ((convert "book.epub" okInp).reports).map Prod.fst =
      [0, mkRat 1 10, mkRat 1 5, mkRat 7 10, mkRat 17 20, 1] ∧
    0 < max (spineItems emptyBook).length 1 :=
  convert_empty_spine "book.epub" okInp emptyBook rfl rfl rfl

/-- C9: convert never returns the failure value False: every run either
returns True or raises, and a raising run has reported fraction 0 with
an error message as its final report; the module-level wrapper returns
exactly what convert returns. -/
theorem convert_never_returns_false (epubPath : String) (inp : ConvInput) :
    convert_epub_to_pdf epubPath inp = convert epubPath inp ∧
    ((convert epubPath inp).result = Except.ok true ∨
      ∃ e, (convert epubPath inp).result = Except.error e ∧
        ((convert epubPath inp).reports).getLast? = some (0, "Error: " ++ e)) := by
  refine ⟨rfl, ?_⟩
  cases hr : inp.readResult with
  | error e =>
    exact Or.inr ⟨e, by simp [convert, hr], by simp [convert, hr]⟩
  | ok book =>
    cases hw : inp.renderResult with
    | error e =>
      refine Or.inr ⟨e, by simp [convert, hr, hw], ?_⟩
      simp only [convert, hr, hw]
      rw [List.getLast?_concat]
    | ok u => exact Or.inl (by simp [convert, hr, hw])

/-- C10: a book whose metadata has no title gets the stem of the source
file name as document title, and a book with no creator gets the empty
author, whose title page carries no author line. -/
theorem convert_metadata_defaults (epubPath : String) (book : Book)
    (h1 : book.titleMeta = none) (h2 : book.creatorMeta = none) :
    docTitle book epubPath = pathStem epubPath ∧
    docAuthor book = "" ∧
    authorFragment (docAuthor book) = "" ∧
    (htmlParts book epubPath).head? = some (titlePagePart (pathStem epubPath) "") := by
  have ht : docTitle book epubPath = pathStem epubPath := by simp [docTitle, h1]
  have ha : docAuthor book = "" := by simp [docAuthor, h2]
  refine ⟨ht, ha, by simp [authorFragment, ha], ?_⟩
  simp [htmlParts, ht, ha]

/-- C10 witness: the empty-metadata book titled from "dir/mybook.epub". -/
theorem convert_metadata_defaults_witness :
    docTitle emptyBook "dir/mybook.epub" = pathStem "dir/mybook.epub" ∧
    docAuthor emptyBook = "" ∧
    authorFragment (docAuthor emptyBook) = "" ∧
    (htmlParts emptyBook "dir/mybook.epub").head? =
      some (titlePagePart (pathStem "dir/mybook.epub") "") :=
  convert_metadata_defaults "dir/mybook.epub" emptyBook rfl rfl

/-! ### Worker status claims -/

/-- C5: the notifications the worker delivers for one job start at
Converting with fraction 0, stay Converting up to the single terminal
notification, never show Pending, and end either at Completed with the
fraction forced to 1 or at Failed with the fraction forced to 0. -/
theorem workerEvents_status_shape (out : ConvOutput) :
    (∀ ev ∈ workerEvents out, ev.status ≠ ConversionStatus.pending) ∧
    (workerEvents out).head?.map WEvent.status = some ConversionStatus.converting ∧
    (∀ ev ∈ (workerEvents out).dropLast, ev.status = ConversionStatus.converting) ∧
    ((workerEvents out).getLast?.map (fun ev => (ev.status, ev.progress)) =
        some (ConversionStatus.completed, 1) ∨
      (workerEvents out).getLast?.map (fun ev => (ev.status, ev.progress)) =
        some (ConversionStatus.failed, 0)) := by
  cases hres : out.result with
  | ok b =>
    have hshape : workerEvents out =
        (⟨ConversionStatus.converting, 0, "Starting conversion..."⟩ ::
          out.reports.map (fun r => ⟨ConversionStatus.converting, r.1, r.2⟩)) ++
          [⟨ConversionStatus.completed, 1, "Complete!"⟩] := by
      simp [workerEvents, hres]
    refine ⟨?_, ?_, ?_, Or.inl ?_⟩
    · intro ev hev
      rw [hshape] at hev
      rcases List.mem_append.mp hev with hev | hev
      · rcases List.mem_cons.mp hev with rfl | hev
        · simp
        · rcases List.mem_map.mp hev with ⟨r, _, rfl⟩
          simp
      · rw [List.mem_singleton.mp hev]
        simp
    · rw [hshape]; rfl
    · intro ev hev
      rw [hshape, List.dropLast_concat] at hev
      rcases List.mem_cons.mp hev with rfl | hev
      · rfl
      · rcases List.mem_map.mp hev with ⟨r, _, rfl⟩; rfl
    · rw [hshape, List.getLast?_concat]; rfl
  | error e =>
    have hshape : workerEvents out =
        (⟨ConversionStatus.converting, 0, "Starting conversion..."⟩ ::
          out.reports.map (fun r => ⟨ConversionStatus.converting, r.1, r.2⟩)) ++
          [⟨ConversionStatus.failed, 0, "Error: " ++ e⟩] := by
      simp [workerEvents, hres]
    refine ⟨?_, ?_, ?_, Or.inr ?_⟩
    · intro ev hev
      rw [hshape] at hev
      rcases List.mem_append.mp hev with hev | hev
      · rcases List.mem_cons.mp hev with rfl | hev
        · simp
        · rcases List.mem_map.mp hev with ⟨r, _, rfl⟩
          simp
      · rw [List.mem_singleton.mp hev]
        simp
    · rw [hshape]; rfl
    · intro ev hev
      rw [hshape, List.dropLast_concat] at hev
      rcases List.mem_cons.mp hev with rfl | hev
      · rfl
      · rcases List.mem_map.mp hev with ⟨r, _, rfl⟩; rfl
    · rw [hshape, List.getLast?_concat]; rfl

/-- C4: the code evaluated at the failing input: a job is added, then
removed while still Pending and before the worker dequeues it; it is
gone from the observed set but still on the task queue, and the next
worker pass still dequeues it, delivers Converting for it and runs the
pipeline, so the removal did not prevent the job from starting. -/
theorem removed_pending_item_still_converted :
    (removeItem (addFile s0 "job1") "job1").queueItems = [] ∧
    (removeItem (addFile s0 "job1") "job1").taskQueue = ["job1"] ∧
    ("job1", (⟨ConversionStatus.converting, 0, "Starting conversion..."⟩ : WEvent)) ∈
      (workerStep (removeItem (addFile s0 "job1") "job1") out0).events := by
  decide
